import Mathlib

/-!
Verification of the vault-plugin-secrets-ad repository against its
natural-language specification.

The development shallowly embeds:
* `src/plugin/util/secrets_client.go` — the `SecretsClient` convenience
  methods (`Get`, `GetPasswordLastSet`, `DisableAccount`, `EnableAccount`,
  `getUserAccountControl`, `updateUAC`), together with faithful models of
  the Go standard-library pieces they rely on (`strconv.ParseUint` with
  base 10 and bit size 32, and `strconv.FormatUint` with base 10).
* the `rollBackPassword` retry controller of the rotation workflow, which
  is exercised by `src/plugin/path_rotate_root_creds_test.go`; the
  controller source itself is not among the provided source files, so it
  is modelled from the specification's description of the loop.

Machine integers are modelled as `Nat` with explicit `% 2 ^ 32` where the
Go code truncates to `uint32`.
-/

namespace VaultAD

/-- Errors are modelled by their message strings, as produced by
`fmt.Errorf` / `errors.New` in the Go code. -/
abbrev Err := String

/-- Model of `client.Entry` restricted to the attributes the code under
`src/plugin/util/secrets_client.go` reads: `entry.Get(field)` returns the
attribute's values and a found-flag, which is modelled by an `Option`
(`none` means the field is absent). -/
structure Entry where
  userAccountControl : Option (List String)
  passwordLastSet : Option (List String)
deriving DecidableEq

/-- Model of `SecretsClient.Get` (secrets_client.go lines 23–40).  The
underlying `adClient.Search` call is external; its outcome is the
function's argument: either a transport error or the list of matching
entries.  The function errors on zero matches and on more than one match,
and returns the single entry otherwise. -/
def Get (searchResult : Except Err (List Entry)) : Except Err Entry :=
  match searchResult with
  | .error e => .error e
  | .ok entries =>
    if entries.length = 0 then
      .error "unable to find service account named in active directory, searches are case sensitive"
    else if entries.length > 1 then
      .error "expected one matching service account, but received more"
    else
      match entries with
      | [] => .error "unable to find service account named in active directory, searches are case sensitive"
      | e :: _ => .ok e

/-- Model of Go's `strconv.ParseUint(s, 10, 32)` digit loop: processes the
characters left to right; a non-digit character yields value 0 with a
syntax error; exceeding the 32-bit maximum yields the maximum value with a
range error, returned immediately.  The boolean is the error flag. -/
def goParseUint32Loop : List Char → Nat → Nat × Bool
  | [], n => (n, false)
  | c :: cs, n =>
    if c.isDigit then
      if n * 10 + (c.toNat - 48) > 4294967295 then (4294967295, true)
      else goParseUint32Loop cs (n * 10 + (c.toNat - 48))
    else (0, true)

/-- Model of Go's `strconv.ParseUint(s, 10, 32)`: the empty string is a
syntax error (value 0); otherwise the digit loop runs. -/
def goParseUint32 (s : String) : Nat × Bool :=
  if s.data = [] then (0, true) else goParseUint32Loop s.data 0

/-- Decimal digit character: `digitChar d` is the character for digit `d`. -/
def digitChar (d : Nat) : Char := Char.ofNat (48 + d)

/-- Model of Go's `strconv.FormatUint(n, 10)` accumulator loop: peels the
least-significant digit into the front of the accumulator. -/
def formatUintAux (n : Nat) (acc : List Char) : List Char :=
  if n < 10 then digitChar n :: acc
  else formatUintAux (n / 10) (digitChar (n % 10) :: acc)
termination_by n
decreasing_by exact Nat.div_lt_self (by omega) (by omega)

/-- Model of Go's `strconv.FormatUint(n, 10)`. -/
def formatUint (n : Nat) : String := ⟨formatUintAux n []⟩

/-- Model of `client.ACCOUNTDISABLE` (userAccountControl flag 0x0002). -/
def ACCOUNTDISABLE : Nat := 2

/-- Modelled from the spec: the bit-flag helper `client.Bits.Has`
(spec §1 calls the bit-flag helpers trivial; the `client` package is not
among the provided sources).  `Has` tests whether the flag's bits are set. -/
def bitsHas (b f : Nat) : Bool := b &&& f ≠ 0

/-- Modelled from the spec: the bit-flag helper `client.Bits.Add`
(bitwise or of the flag into the value). -/
def bitsAdd (b f : Nat) : Nat := b ||| f

/-- Modelled from the spec: the bit-flag helper `client.Bits.Clear`
(Go `b &^= f` on a 32-bit value: and with the complement of the flag). -/
def bitsClear (b f : Nat) : Nat := b &&& (4294967295 ^^^ f)

/-- Model of `SecretsClient.getUserAccountControl` (secrets_client.go
lines 138–156).  Get the single entry; its `UserAccountControl` attribute
must exist with exactly one value; that value is parsed by
`strconv.ParseUint(val, 10, 32)` whose error result is discarded: the
function returns `client.Bits(uint32(uac64))` with a nil error.  The
`uint32` conversion is the `% 2 ^ 32`. -/
def getUserAccountControl (searchResult : Except Err (List Entry)) : Nat × Option Err :=
  match Get searchResult with
  | .error e => (0, some e)
  | .ok entry =>
    match entry.userAccountControl with
    | none => (0, some "entry lacks a UserAccountControl field")
    | some values =>
      match values with
      | [val] => ((goParseUint32 val).1 % 2 ^ 32, none)
      | _ => (0, some "expected only one value for UserAccountControl, but received more")

/-- Model of `SecretsClient.updateUAC` (secrets_client.go lines 124–136):
writes `strconv.FormatUint(uint64(uac), 10)` as the new single value of
the matched entry's `UserAccountControl` attribute.  The external
`adClient.UpdateEntry` call is modelled as the state change on the
directory's matching entries, succeeding with a nil error. -/
def updateUAC (entries : List Entry) (uac : Nat) : List Entry × Option Err :=
  (entries.map fun e => { e with userAccountControl := some [formatUint uac] }, none)

/-- Model of `SecretsClient.DisableAccount` (secrets_client.go lines
91–105): read the account-control flags; on a read error return it with
no directory change; if the `ACCOUNTDISABLE` flag is absent, add it and
update the directory; otherwise do nothing and return nil.  The directory
state visible to the account's search is the entry list. -/
def DisableAccount (entries : List Entry) : List Entry × Option Err :=
  match getUserAccountControl (.ok entries) with
  | (_, some e) => (entries, some e)
  | (uacFlag, none) =>
    if ¬ bitsHas uacFlag ACCOUNTDISABLE then
      updateUAC entries (bitsAdd uacFlag ACCOUNTDISABLE)
    else
      (entries, none)

/-- Model of `SecretsClient.EnableAccount` (secrets_client.go lines
108–121): read the account-control flags; on a read error return it with
no directory change; if the `ACCOUNTDISABLE` flag is present, clear it and
update the directory; otherwise do nothing and return nil. -/
def EnableAccount (entries : List Entry) : List Entry × Option Err :=
  match getUserAccountControl (.ok entries) with
  | (_, some e) => (entries, some e)
  | (uacFlag, none) =>
    if bitsHas uacFlag ACCOUNTDISABLE then
      updateUAC entries (bitsClear uacFlag ACCOUNTDISABLE)
    else
      (entries, none)

/-- Timestamps are modelled by an integer tick count; `0` is the zero
`time.Time`. -/
abbrev GoTime := Int

/-- Model of `SecretsClient.GetPasswordLastSet` (secrets_client.go lines
42–68).  `client.ParseTicks` lives in the external `client` package, so it
is a parameter.  Get the single entry; its `PasswordLastSet` attribute
must exist with exactly one value; the value `"0"` means the password was
never rolled and yields the zero time with nil error; otherwise the ticks
are parsed, propagating a parse error with the zero time. -/
def GetPasswordLastSet (parseTicks : String → Except Err GoTime)
    (searchResult : Except Err (List Entry)) : GoTime × Option Err :=
  match Get searchResult with
  | .error e => (0, some e)
  | .ok entry =>
    match entry.passwordLastSet with
    | none => (0, some "entry lacks a PasswordLastSet field")
    | some values =>
      match values with
      | [ticks] =>
        if ticks = "0" then (0, none)
        else
          match parseTicks ticks with
          | .error e => (0, some e)
          | .ok t => (t, none)
      | _ => (0, some "expected only one value for PasswordLastSet, but received more")

/-- Number of decimal digits of `n` (at least one). -/
def ndigits (n : Nat) : Nat :=
  if n < 10 then 1 else ndigits (n / 10) + 1
termination_by n
decreasing_by exact Nat.div_lt_self (by omega) (by omega)

theorem digitChar_isDigit (d : Nat) (h : d < 10) : (digitChar d).isDigit = true := by
  interval_cases d <;> decide

theorem digitChar_toNat (d : Nat) (h : d < 10) : (digitChar d).toNat = 48 + d := by
  interval_cases d <;> decide

/-- Running the parse loop on a formatted number followed by a tail is
running it on the tail with the number folded into the accumulator, as
long as no overflow occurs. -/
theorem goParseUint32Loop_formatUintAux (n : Nat) :
    ∀ (a : Nat) (acc : List Char), a * 10 ^ ndigits n + n ≤ 4294967295 →
      goParseUint32Loop (formatUintAux n acc) a
        = goParseUint32Loop acc (a * 10 ^ ndigits n + n) := by
  induction n using Nat.strong_induction_on with
  | _ n ih =>
    intro a acc hbound
    by_cases h : n < 10
    · rw [ndigits, if_pos h, pow_one] at hbound ⊢
      rw [formatUintAux, if_pos h]
      rw [goParseUint32Loop, digitChar_isDigit n h, if_pos rfl, digitChar_toNat n h]
      have hd : 48 + n - 48 = n := by omega
      rw [hd]
      have hle : ¬ a * 10 + n > 4294967295 := by omega
      simp only [if_neg hle]
    · rw [ndigits, if_neg h, pow_succ, ← mul_assoc] at hbound ⊢
      rw [formatUintAux, if_neg h]
      have hdiv : n / 10 < n := Nat.div_lt_self (by omega) (by omega)
      have hmod : n % 10 < 10 := Nat.mod_lt _ (by omega)
      have hb' : a * 10 ^ ndigits (n / 10) + n / 10 ≤ 4294967295 := by omega
      rw [ih (n / 10) hdiv a (digitChar (n % 10) :: acc) hb']
      rw [goParseUint32Loop, digitChar_isDigit _ hmod, if_pos rfl, digitChar_toNat _ hmod]
      have hd : 48 + n % 10 - 48 = n % 10 := by omega
      rw [hd]
      have hle : ¬ (a * 10 ^ ndigits (n / 10) + n / 10) * 10 + n % 10 > 4294967295 := by
        omega
      simp only [if_neg hle]
      congr 1
      omega

theorem formatUintAux_ne_nil (n : Nat) : ∀ acc, formatUintAux n acc ≠ [] := by
  induction n using Nat.strong_induction_on with
  | _ n ih =>
    intro acc
    by_cases h : n < 10
    · rw [formatUintAux, if_pos h]; simp
    · rw [formatUintAux, if_neg h]
      exact ih (n / 10) (Nat.div_lt_self (by omega) (by omega)) _

/-- Round trip: parsing back a formatted 32-bit value recovers it with no
error. -/
theorem goParseUint32_formatUint (n : Nat) (h : n ≤ 4294967295) :
    goParseUint32 (formatUint n) = (n, false) := by
  rw [goParseUint32, formatUint]
  have hne : formatUintAux n [] ≠ [] := formatUintAux_ne_nil n []
  simp only [String.data]
  rw [if_neg hne]
  have hb : 0 * 10 ^ ndigits n + n ≤ 4294967295 := by omega
  rw [goParseUint32Loop_formatUintAux n 0 [] hb]
  simp [goParseUint32Loop]

/-- The parse loop's value never exceeds the 32-bit maximum when the
accumulator starts within bounds. -/
theorem goParseUint32Loop_le (cs : List Char) :
    ∀ a, a ≤ 4294967295 → (goParseUint32Loop cs a).1 ≤ 4294967295 := by
  induction cs with
  | nil => intro a ha; simpa [goParseUint32Loop] using ha
  | cons c cs ih =>
    intro a ha
    rw [goParseUint32Loop]
    by_cases hc : c.isDigit
    · rw [if_pos hc]
      by_cases hov : a * 10 + (c.toNat - 48) > 4294967295
      · simp [hov]
      · simp only [if_neg hov]
        exact ih _ (by omega)
    · simp [hc]

/-- The parsed value never exceeds the 32-bit maximum. -/
theorem goParseUint32_le (s : String) : (goParseUint32 s).1 ≤ 4294967295 := by
  rw [goParseUint32]
  by_cases h : s.data = []
  · simp [h]
  · rw [if_neg h]; exact goParseUint32Loop_le s.data 0 (by omega)

theorem bitsHas_add_ACCOUNTDISABLE (u : Nat) :
    bitsHas (bitsAdd u ACCOUNTDISABLE) ACCOUNTDISABLE = true := by
  rw [bitsHas, bitsAdd, ACCOUNTDISABLE]
  have ht : (u ||| 2).testBit 1 = true := by
    rw [Nat.testBit_or]
    have h2 : Nat.testBit 2 1 = true := by decide
    rw [h2, Bool.or_true]
  have hk := Nat.and_two_pow (u ||| 2) 1
  rw [ht] at hk
  norm_num at hk
  rw [hk]
  decide

theorem bitsHas_clear_ACCOUNTDISABLE (u : Nat) :
    bitsHas (bitsClear u ACCOUNTDISABLE) ACCOUNTDISABLE = false := by
  rw [bitsHas, bitsClear, ACCOUNTDISABLE]
  rw [Nat.land_assoc]
  have hc : (4294967295 ^^^ 2) &&& 2 = 0 := by decide
  rw [hc, Nat.and_zero]
  decide

theorem bitsAdd_ACCOUNTDISABLE_le (u : Nat) (h : u ≤ 4294967295) :
    bitsAdd u ACCOUNTDISABLE ≤ 4294967295 := by
  rw [bitsAdd, ACCOUNTDISABLE]
  have h32 : (2 : Nat) ^ 32 = 4294967296 := by norm_num
  have h1 : u < 2 ^ 32 := by omega
  have h2 : (2 : Nat) < 2 ^ 32 := by omega
  have h3 : u ||| 2 < 2 ^ 32 := Nat.or_lt_two_pow h1 h2
  omega

theorem bitsClear_ACCOUNTDISABLE_le (u : Nat) :
    bitsClear u ACCOUNTDISABLE ≤ 4294967295 := by
  rw [bitsClear, ACCOUNTDISABLE]
  have h1 : u &&& (4294967295 ^^^ 2) ≤ 4294967295 ^^^ 2 := Nat.and_le_right
  have h2 : (4294967295 : Nat) ^^^ 2 = 4294967293 := by decide
  omega

/-- When the parse errors, the returned value is 0 (syntax error) or the
32-bit maximum (range error). -/
theorem goParseUint32Loop_error_val (cs : List Char) :
    ∀ a, (goParseUint32Loop cs a).2 = true →
      (goParseUint32Loop cs a).1 = 0 ∨ (goParseUint32Loop cs a).1 = 4294967295 := by
  induction cs with
  | nil => intro a h; simp [goParseUint32Loop] at h
  | cons c cs ih =>
    intro a h
    rw [goParseUint32Loop] at h ⊢
    by_cases hc : c.isDigit
    · rw [if_pos hc] at h ⊢
      by_cases hov : a * 10 + (c.toNat - 48) > 4294967295
      · simp only [if_pos hov]
        right
        trivial
      · simp only [if_neg hov] at h ⊢
        exact ih _ h
    · rw [if_neg hc] at h ⊢
      left
      trivial

/-- When the parse errors, `goParseUint32` yields 0 or the 32-bit
maximum. -/
theorem goParseUint32_error_val (s : String) (h : (goParseUint32 s).2 = true) :
    (goParseUint32 s).1 = 0 ∨ (goParseUint32 s).1 = 4294967295 := by
  rw [goParseUint32] at h ⊢
  by_cases hs : s.data = []
  · rw [if_pos hs]
    left
    rfl
  · rw [if_neg hs] at h ⊢
    exact goParseUint32Loop_error_val s.data 0 h

/-- Reading the account-control flags of a single entry whose
`UserAccountControl` attribute has exactly one value always succeeds with
the parsed value and a nil error (the parse error is discarded by the
code). -/
theorem getUAC_ok_single (e : Entry) (v : String)
    (hv : e.userAccountControl = some [v]) :
    getUserAccountControl (.ok [e]) = ((goParseUint32 v).1, none) := by
  simp [getUserAccountControl, Get, hv]
  have := goParseUint32_le v
  omega

/-- Inversion: a nil-error account-control read forces the directory
state to be a single entry with a single-valued `UserAccountControl`
attribute, and the flags to be the parsed value. -/
theorem getUAC_none_inv (es : List Entry) (u : Nat)
    (h : getUserAccountControl (.ok es) = (u, none)) :
    ∃ e v, es = [e] ∧ e.userAccountControl = some [v]
      ∧ u = (goParseUint32 v).1 := by
  match es with
  | [] => simp [getUserAccountControl, Get] at h
  | [e] =>
    cases hv : e.userAccountControl with
    | none => simp [getUserAccountControl, Get, hv] at h
    | some vs =>
      match vs with
      | [] => simp [getUserAccountControl, Get, hv] at h
      | [v] =>
        rw [getUAC_ok_single e v hv] at h
        have hu : u = (goParseUint32 v).1 := by
          have := congrArg Prod.fst h
          simpa using this.symm
        exact ⟨e, v, rfl, hv, hu⟩
      | v1 :: v2 :: rest => simp [getUserAccountControl, Get, hv] at h
  | e1 :: e2 :: rest => simp [getUserAccountControl, Get] at h

/-- Disabling is a no-op when the `ACCOUNTDISABLE` flag is already set. -/
theorem DisableAccount_noop (es : List Entry) (u : Nat)
    (hg : getUserAccountControl (.ok es) = (u, none))
    (hh : bitsHas u ACCOUNTDISABLE = true) :
    DisableAccount es = (es, none) := by
  simp [DisableAccount, hg, hh]

/-- Enabling is a no-op when the `ACCOUNTDISABLE` flag is already absent. -/
theorem EnableAccount_noop (es : List Entry) (u : Nat)
    (hg : getUserAccountControl (.ok es) = (u, none))
    (hh : bitsHas u ACCOUNTDISABLE = false) :
    EnableAccount es = (es, none) := by
  simp [EnableAccount, hg, hh]

/-- Disabling an enabled single account writes the flags with
`ACCOUNTDISABLE` added. -/
theorem DisableAccount_update_single (e : Entry) (u : Nat)
    (hg : getUserAccountControl (.ok [e]) = (u, none))
    (hh : bitsHas u ACCOUNTDISABLE = false) :
    DisableAccount [e]
      = ([{ e with userAccountControl := some [formatUint (bitsAdd u ACCOUNTDISABLE)] }], none) := by
  simp [DisableAccount, hg, hh, updateUAC]

/-- Enabling a disabled single account writes the flags with
`ACCOUNTDISABLE` cleared. -/
theorem EnableAccount_update_single (e : Entry) (u : Nat)
    (hg : getUserAccountControl (.ok [e]) = (u, none))
    (hh : bitsHas u ACCOUNTDISABLE = true) :
    EnableAccount [e]
      = ([{ e with userAccountControl := some [formatUint (bitsClear u ACCOUNTDISABLE)] }], none) := by
  simp [EnableAccount, hg, hh, updateUAC]

/-- Applying `DisableAccount` twice leaves the directory in the same
state as applying it once. -/
theorem DisableAccount_state_idem (es : List Entry) :
    (DisableAccount (DisableAccount es).1).1 = (DisableAccount es).1 := by
  cases hg : getUserAccountControl (.ok es) with
  | mk u oe =>
    cases oe with
    | some err =>
      have h1 : DisableAccount es = (es, some err) := by simp [DisableAccount, hg]
      simp [h1]
    | none =>
      cases hh : bitsHas u ACCOUNTDISABLE with
      | true =>
        have h1 : DisableAccount es = (es, none) := DisableAccount_noop es u hg hh
        simp [h1]
      | false =>
        obtain ⟨e, v, hes, hv, hu⟩ := getUAC_none_inv es u hg
        subst hes
        have h1 := DisableAccount_update_single e u hg hh
        have hule : u ≤ 4294967295 := by rw [hu]; exact goParseUint32_le v
        have hu'le : bitsAdd u ACCOUNTDISABLE ≤ 4294967295 :=
          bitsAdd_ACCOUNTDISABLE_le u hule
        have hround : goParseUint32 (formatUint (bitsAdd u ACCOUNTDISABLE))
            = (bitsAdd u ACCOUNTDISABLE, false) :=
          goParseUint32_formatUint _ hu'le
        have hg2 : getUserAccountControl
            (.ok [{ e with userAccountControl := some [formatUint (bitsAdd u ACCOUNTDISABLE)] }])
            = (bitsAdd u ACCOUNTDISABLE, none) := by
          rw [getUAC_ok_single _ _ rfl, hround]
        have h2 := DisableAccount_noop _ _ hg2 (bitsHas_add_ACCOUNTDISABLE u)
        simp [h1, h2]

/-- Applying `EnableAccount` twice leaves the directory in the same state
as applying it once. -/
theorem EnableAccount_state_idem (es : List Entry) :
    (EnableAccount (EnableAccount es).1).1 = (EnableAccount es).1 := by
  cases hg : getUserAccountControl (.ok es) with
  | mk u oe =>
    cases oe with
    | some err =>
      have h1 : EnableAccount es = (es, some err) := by simp [EnableAccount, hg]
      simp [h1]
    | none =>
      cases hh : bitsHas u ACCOUNTDISABLE with
      | false =>
        have h1 : EnableAccount es = (es, none) := EnableAccount_noop es u hg hh
        simp [h1]
      | true =>
        obtain ⟨e, v, hes, hv, hu⟩ := getUAC_none_inv es u hg
        subst hes
        have h1 := EnableAccount_update_single e u hg hh
        have hround : goParseUint32 (formatUint (bitsClear u ACCOUNTDISABLE))
            = (bitsClear u ACCOUNTDISABLE, false) :=
          goParseUint32_formatUint _ (bitsClear_ACCOUNTDISABLE_le u)
        have hg2 : getUserAccountControl
            (.ok [{ e with userAccountControl := some [formatUint (bitsClear u ACCOUNTDISABLE)] }])
            = (bitsClear u ACCOUNTDISABLE, none) := by
          rw [getUAC_ok_single _ _ rfl, hround]
        have h2 := EnableAccount_noop _ _ hg2 (bitsHas_clear_ACCOUNTDISABLE u)
        simp [h1, h2]

/-- C7: `DisableAccount` and `EnableAccount` are idempotent
read-modify-write operations: when the account's `UserAccountControl`
already has (respectively, lacks) the `ACCOUNTDISABLE` flag, the call
performs no directory update and returns nil, so applying the same
operation twice has the same directory effect as applying it once. -/
theorem disable_enable_idempotent :
    (∀ (es : List Entry) (u : Nat), getUserAccountControl (.ok es) = (u, none) →
        bitsHas u ACCOUNTDISABLE = true → DisableAccount es = (es, none))
    ∧ (∀ (es : List Entry) (u : Nat), getUserAccountControl (.ok es) = (u, none) →
        bitsHas u ACCOUNTDISABLE = false → EnableAccount es = (es, none))
    ∧ (∀ es : List Entry,
        (DisableAccount (DisableAccount es).1).1 = (DisableAccount es).1)
    ∧ (∀ es : List Entry,
        (EnableAccount (EnableAccount es).1).1 = (EnableAccount es).1) :=
  ⟨DisableAccount_noop, EnableAccount_noop,
   DisableAccount_state_idem, EnableAccount_state_idem⟩

/-- Witness for C7 at concrete directory states: an already-disabled
account (flags 2) is left alone by `DisableAccount`, and an
already-enabled account (flags 0) is left alone by `EnableAccount`. -/
theorem disable_enable_idempotent_witness :
    DisableAccount [⟨some ["2"], none⟩] = ([⟨some ["2"], none⟩], none)
    ∧ EnableAccount [⟨some ["0"], none⟩] = ([⟨some ["0"], none⟩], none) :=
  ⟨disable_enable_idempotent.1 [⟨some ["2"], none⟩] 2 (by decide) (by decide),
   disable_enable_idempotent.2.1 [⟨some ["0"], none⟩] 0 (by decide) (by decide)⟩

/-- C8 counterexample: the value `"4294967296"` fails to parse as an
unsigned 32-bit integer (range error), yet `getUserAccountControl` does
not return `Bits(0)` with a nil error there: it returns the 32-bit
maximum with a nil error. -/
theorem getUserAccountControl_not_always_zero :
    (goParseUint32 "4294967296").2 = true
    ∧ getUserAccountControl (.ok [⟨some ["4294967296"], none⟩]) ≠ (0, none)
    ∧ getUserAccountControl (.ok [⟨some ["4294967296"], none⟩])
        = (4294967295, none) := by
  refine ⟨by decide, by decide, by decide⟩

/-- C8 (amended): `getUserAccountControl` never returns the error
produced by parsing the `UserAccountControl` attribute value: for every
entry whose single value fails to parse, it returns a nil error together
with the value `ParseUint` reports — 0 on a syntax error, the 32-bit
maximum on a range error — so `DisableAccount` and `EnableAccount`
proceed with that value as the account's control flags. -/
theorem getUserAccountControl_swallows_parse_error (e : Entry) (v : String)
    (hv : e.userAccountControl = some [v])
    (herr : (goParseUint32 v).2 = true) :
    getUserAccountControl (.ok [e]) = ((goParseUint32 v).1, none)
    ∧ ((goParseUint32 v).1 = 0 ∨ (goParseUint32 v).1 = 4294967295) :=
  ⟨getUAC_ok_single e v hv, goParseUint32_error_val v herr⟩

/-- Witness for the amended C8 at a syntax-invalid value. -/
theorem getUserAccountControl_swallows_parse_error_witness :
    getUserAccountControl (.ok [⟨some ["abc"], none⟩])
      = ((goParseUint32 "abc").1, none)
    ∧ ((goParseUint32 "abc").1 = 0 ∨ (goParseUint32 "abc").1 = 4294967295) :=
  getUserAccountControl_swallows_parse_error ⟨some ["abc"], none⟩ "abc" rfl
    (by decide)

/-- C9: `Get` returns a non-error entry if and only if the directory
search for the service account's `UserPrincipalName` yields exactly one
entry; zero matches and more than one match each produce an error, and
on exactly one match the returned entry is that single search result. -/
theorem Get_ok_iff_exactly_one (r : Except Err (List Entry)) :
    ((∃ e, Get r = .ok e) ↔ (∃ e, r = .ok [e]))
    ∧ (∀ e, r = .ok [e] → Get r = .ok e)
    ∧ (∀ es, r = .ok es → es.length ≠ 1 → ∃ msg, Get r = .error msg) := by
  refine ⟨⟨?_, ?_⟩, ?_, ?_⟩
  · rintro ⟨e, he⟩
    match r with
    | .error msg => simp [Get] at he
    | .ok [] => simp [Get] at he
    | .ok [x] =>
      simp [Get] at he
      exact ⟨x, by rw [he]⟩
    | .ok (x :: y :: rest) => simp [Get] at he
  · rintro ⟨e, he⟩
    exact ⟨e, by rw [he]; simp [Get]⟩
  · intro e he
    rw [he]
    simp [Get]
  · intro es he hne
    rw [he]
    match es with
    | [] => exact ⟨_, rfl⟩
    | [x] => exact absurd rfl hne
    | x :: y :: rest =>
      exact ⟨"expected one matching service account, but received more", by simp [Get]⟩

/-- Witness for C9 at a concrete single-entry search result. -/
theorem Get_ok_iff_exactly_one_witness :
    Get (.ok [(⟨none, none⟩ : Entry)]) = .ok ⟨none, none⟩ :=
  (Get_ok_iff_exactly_one (.ok [(⟨none, none⟩ : Entry)])).2.1 ⟨none, none⟩ rfl

/-- C10: `GetPasswordLastSet` returns the zero timestamp with a nil
error whenever the entry's single `PasswordLastSet` value is the string
`"0"`, and returns the zero timestamp with a non-nil error whenever the
field is absent or has more than one value. -/
theorem GetPasswordLastSet_zero_and_errors
    (parseTicks : String → Except Err GoTime) (e : Entry) :
    (e.passwordLastSet = some ["0"] →
        GetPasswordLastSet parseTicks (.ok [e]) = (0, none))
    ∧ (e.passwordLastSet = none →
        (GetPasswordLastSet parseTicks (.ok [e])).1 = 0
        ∧ (GetPasswordLastSet parseTicks (.ok [e])).2 ≠ none)
    ∧ (∀ vs, e.passwordLastSet = some vs → 1 < vs.length →
        (GetPasswordLastSet parseTicks (.ok [e])).1 = 0
        ∧ (GetPasswordLastSet parseTicks (.ok [e])).2 ≠ none) := by
  refine ⟨?_, ?_, ?_⟩
  · intro h
    simp [GetPasswordLastSet, Get, h]
  · intro h
    simp [GetPasswordLastSet, Get, h]
  · intro vs h hlen
    match vs with
    | [] => simp at hlen
    | [x] => simp at hlen
    | x :: y :: rest => simp [GetPasswordLastSet, Get, h]

/-- Witness for C10 at a concrete entry whose `PasswordLastSet` value is
`"0"`. -/
theorem GetPasswordLastSet_zero_and_errors_witness :
    GetPasswordLastSet (fun _ => .ok 7) (.ok [⟨none, some ["0"]⟩]) = (0, none) :=
  (GetPasswordLastSet_zero_and_errors (fun _ => .ok 7) ⟨none, some ["0"]⟩).1 rfl

/-! ## The rollback controller

The controller `rollBackPassword` governs root-credential rotation
rollback.  Its source file is not among the provided sources (only its
test, `src/plugin/path_rotate_root_creds_test.go`, is), so the loop is
modelled from the specification (§4.1): attempt `setRootPassword`;
success returns nil immediately; failure waits a bounded inter-attempt
delay racing the cancellation signal; cancellation ends the loop with the
same nil return as success; otherwise the next attempt starts.  The
unbounded loop is embedded with an attempt budget (`fuel`): `running`
means the budget ran out with the loop still going, so a loop that never
terminates is one that is `running` for every budget. -/

/-- Model of `ldaputil.ConfigEntry` restricted to the field the rollback
test sets: the bind distinguished name. -/
structure ConfigEntry where
  bindDN : String
deriving DecidableEq

/-- Model of the `configuration` value handed to `rollBackPassword`. -/
structure Configuration where
  adConf : ConfigEntry
deriving DecidableEq

/-- Modelled from the spec: the environment one invocation of
`rollBackPassword` runs in.  `attemptErr i` is the result of the i-th
`setRootPassword` call (`none` means success); `cancelDuringDelay i`
tells whether the cancellation signal becomes ready before the delay
following failed attempt i completes (the race of §5). -/
structure RetryEnv where
  attemptErr : Nat → Option Err
  cancelDuringDelay : Nat → Bool

/-- Outcome of running the rollback loop under an attempt budget:
`succeeded calls delays` (success after `calls` setRootPassword calls and
`delays` fully-elapsed inter-attempt delays), `cancelled calls`
(cancellation observed after `calls` calls), or `running next` (budget
exhausted with the loop about to start attempt `next`). -/
inductive Outcome where
  | succeeded (calls : Nat) (delays : Nat)
  | cancelled (calls : Nat)
  | running (next : Nat)
deriving DecidableEq

/-- Modelled from the spec: the rollback retry loop, starting at attempt
index `i` with budget `fuel`.  Each iteration attempts, returns on
success, and otherwise races the delay against cancellation: cancellation
ends the loop, a completed delay leads to the next attempt.  No error
kind is inspected and no attempt count ends the loop. -/
def rollBackLoop (env : RetryEnv) : Nat → Nat → Outcome
  | 0, i => .running i
  | fuel + 1, i =>
    match env.attemptErr i with
    | none => .succeeded (i + 1) i
    | some _ =>
      if env.cancelDuringDelay i then .cancelled (i + 1)
      else rollBackLoop env fuel (i + 1)

/-- Modelled from the spec: `rollBackPassword` runs the retry loop from
attempt 0. -/
def rollBackPassword (env : RetryEnv) (fuel : Nat) : Outcome :=
  rollBackLoop env fuel 0

/-- Return value the caller observes for an outcome: `some e?` means the
controller returned with error value `e?`; `none` means it has not
returned (the loop is still running).  Both terminal outcomes return a
nil error. -/
def returnValue : Outcome → Option (Option Err)
  | .succeeded _ _ => some none
  | .cancelled _ => some none
  | .running _ => none

/-- Modelled from the spec: the rollback loop threading the caller's
configuration value through every iteration, to state the frame
condition.  The configuration is passed to each attempt and handed on
unchanged; the returned configuration is what the caller's value holds
after the call. -/
def rollBackLoopC (env : RetryEnv) (conf : Configuration) : Nat → Nat → Outcome × Configuration
  | 0, i => (.running i, conf)
  | fuel + 1, i =>
    match env.attemptErr i with
    | none => (.succeeded (i + 1) i, conf)
    | some _ =>
      if env.cancelDuringDelay i then (.cancelled (i + 1), conf)
      else rollBackLoopC env conf fuel (i + 1)

/-- Modelled from the spec: the timed rollback environment, for the
delay/cancellation race.  `attemptDur i` is how long the i-th
`setRootPassword` call takes; `delay` is the fixed inter-attempt delay;
`cancelTime` is the absolute time at which the cancellation signal fires
(`none`: never). -/
structure TimedEnv where
  attemptErr : Nat → Option Err
  attemptDur : Nat → Nat
  delay : Nat
  cancelTime : Option Nat

/-- Outcome of the timed rollback loop: terminal outcomes carry the
absolute time at which the controller returns. -/
inductive TimedOutcome where
  | succeeded (calls : Nat) (t : Nat)
  | cancelled (calls : Nat) (t : Nat)
  | running (next : Nat) (t : Nat)
deriving DecidableEq

/-- Modelled from the spec: the timed rollback loop at attempt `i`,
current time `t`.  An attempt takes its duration; on failure the wait
races the cancellation signal: if cancellation fires before the delay
would complete, the controller returns at the moment cancellation is
observed (immediately if it already fired); otherwise the full delay
elapses and the next attempt starts. -/
def timedLoop (env : TimedEnv) : Nat → Nat → Nat → TimedOutcome
  | 0, i, t => .running i t
  | fuel + 1, i, t =>
    let t1 := t + env.attemptDur i
    match env.attemptErr i with
    | none => .succeeded (i + 1) t1
    | some _ =>
      match env.cancelTime with
      | some T =>
        if T < t1 + env.delay then .cancelled (i + 1) (max t1 T)
        else timedLoop env fuel (i + 1) (t1 + env.delay)
      | none => timedLoop env fuel (i + 1) (t1 + env.delay)

/-- C1: for every sequence of failing `setRootPassword` results,
`rollBackPassword` never terminates because of the kind of a directory
error and never surfaces an intermediate directory error to the caller
mid-loop: the only terminal outcomes are success and a
cancellation-triggered stop, with no give-up-after-N-attempts outcome. -/
theorem rollBackPassword_no_giveup :
    (∀ (env : RetryEnv) (fuel : Nat) (e : Err),
        returnValue (rollBackPassword env fuel) ≠ some (some e))
    ∧ (∀ (env : RetryEnv), (∀ j, (env.attemptErr j).isSome) →
        (∀ j, env.cancelDuringDelay j = false) →
        ∀ fuel i, rollBackLoop env fuel i = .running (i + fuel))
    ∧ (∀ (env : RetryEnv) (fuel : Nat),
        (∃ c d, rollBackPassword env fuel = .succeeded c d)
        ∨ (∃ c, rollBackPassword env fuel = .cancelled c)
        ∨ (∃ nx, rollBackPassword env fuel = .running nx)) := by
  refine ⟨?_, ?_, ?_⟩
  · intro env fuel e
    cases rollBackPassword env fuel <;> simp [returnValue]
  · intro env hfail hnc fuel
    induction fuel with
    | zero => intro i; rw [rollBackLoop, Nat.add_zero]
    | succ fuel ih =>
      intro i
      rw [rollBackLoop]
      obtain ⟨e, he⟩ := Option.isSome_iff_exists.mp (hfail i)
      rw [he, hnc i]
      rw [if_neg (by simp)]
      have hrec := ih (i + 1)
      rw [show i + 1 + fuel = i + (fuel + 1) by omega] at hrec
      exact hrec
  · intro env fuel
    cases h : rollBackPassword env fuel with
    | succeeded c d => exact Or.inl ⟨c, d, rfl⟩
    | cancelled c => exact Or.inr (Or.inl ⟨c, rfl⟩)
    | running nx => exact Or.inr (Or.inr ⟨nx, rfl⟩)

/-- Witness for C1: an environment whose every attempt fails and whose
cancellation never fires keeps the loop running for any attempt budget,
and no run ever returns a directory error. -/
theorem rollBackPassword_no_giveup_witness :
    rollBackLoop ⟨fun _ => some "nope", fun _ => false⟩ 5 0 = .running (0 + 5)
    ∧ returnValue (rollBackPassword ⟨fun _ => some "nope", fun _ => false⟩ 3)
        ≠ some (some "nope") :=
  ⟨rollBackPassword_no_giveup.2.1 ⟨fun _ => some "nope", fun _ => false⟩
      (fun _ => rfl) (fun _ => rfl) 5 0,
   rollBackPassword_no_giveup.1 ⟨fun _ => some "nope", fun _ => false⟩ 3 "nope"⟩

/-- C2: when `rollBackPassword` exits because it observed cancellation,
the caller observes a clean return that does not propagate the directory
error from the most recent failed attempt and is indistinguishable in
the return value from the success outcome: the same return value is
produced on cancellation-triggered exit as on successful rollback. -/
theorem rollBackPassword_cancel_clean_return
    (env : RetryEnv) (fuel n : Nat)
    (hc : rollBackPassword env fuel = .cancelled n) :
    returnValue (rollBackPassword env fuel) = some none
    ∧ ∀ (env2 : RetryEnv) (fuel2 c d : Nat),
        rollBackPassword env2 fuel2 = .succeeded c d →
        returnValue (rollBackPassword env fuel)
          = returnValue (rollBackPassword env2 fuel2) := by
  constructor
  · rw [hc]
    rfl
  · intro env2 fuel2 c d hs
    rw [hc, hs]
    rfl

/-- Witness for C2: a run that fails once and is cancelled during the
first delay returns the same nil value as a run that succeeds at once. -/
theorem rollBackPassword_cancel_clean_return_witness :
    returnValue (rollBackPassword ⟨fun _ => some "nope", fun _ => true⟩ 1)
      = some none :=
  (rollBackPassword_cancel_clean_return ⟨fun _ => some "nope", fun _ => true⟩
    1 1 rfl).1

/-- C3: the inter-attempt delay in `rollBackPassword` is bounded and
races against the cancellation signal: when cancellation fires at any
point during the delay, the wait is interrupted and the loop exits at
exactly that moment — before the full delay elapses and with no further
attempt — while without cancellation in the window the next attempt
starts after exactly the fixed delay. -/
theorem timedLoop_delay_race (env : TimedEnv) (fuel i t : Nat) (e : Err)
    (hfail : env.attemptErr i = some e) :
    (∀ T, env.cancelTime = some T →
        t + env.attemptDur i ≤ T → T < t + env.attemptDur i + env.delay →
        timedLoop env (fuel + 1) i t = .cancelled (i + 1) T
        ∧ T < t + env.attemptDur i + env.delay)
    ∧ (∀ T, env.cancelTime = some T → t + env.attemptDur i + env.delay ≤ T →
        timedLoop env (fuel + 1) i t
          = timedLoop env fuel (i + 1) (t + env.attemptDur i + env.delay)) := by
  constructor
  · intro T hT hlo hhi
    refine ⟨?_, hhi⟩
    rw [timedLoop]
    simp only [hfail, hT]
    rw [if_pos (by omega)]
    rw [Nat.max_eq_right hlo]
  · intro T hT hge
    rw [timedLoop]
    simp only [hfail, hT]
    rw [if_neg (by omega)]

/-- Witness for C3: with a 3-unit attempt and a 10-unit delay, a
cancellation firing at absolute time 7 — mid-delay — ends the run at
time 7 with no second attempt. -/
theorem timedLoop_delay_race_witness :
    timedLoop ⟨fun _ => some "nope", fun _ => 3, 10, some 7⟩ 1 0 0
      = .cancelled 1 7 :=
  ((timedLoop_delay_race ⟨fun _ => some "nope", fun _ => 3, 10, some 7⟩
    0 0 0 "nope" rfl).1 7 rfl (by decide) (by decide)).1

/-- C4: for every directory client whose `setRootPassword` always
succeeds, `rollBackPassword` returns with no error on the first attempt
and without invoking the inter-attempt delay: one call, zero delays. -/
theorem rollBackPassword_fast_path (env : RetryEnv) (fuel : Nat)
    (h : env.attemptErr 0 = none) :
    rollBackPassword env (fuel + 1) = .succeeded 1 0
    ∧ returnValue (rollBackPassword env (fuel + 1)) = some none := by
  have h1 : rollBackPassword env (fuel + 1) = .succeeded 1 0 := by
    rw [rollBackPassword, rollBackLoop, h]
  exact ⟨h1, by rw [h1]; rfl⟩

/-- Witness for C4: an always-succeeding client returns success after one
call and zero delays. -/
theorem rollBackPassword_fast_path_witness :
    rollBackPassword ⟨fun _ => none, fun _ => false⟩ 1 = .succeeded 1 0 :=
  (rollBackPassword_fast_path ⟨fun _ => none, fun _ => false⟩ 0 rfl).1

/-- Auxiliary for C5: if the next `k` attempts from index `i` fail, the
one after succeeds, and cancellation never fires, the loop returns
success after exactly `i + k + 1` total calls. -/
theorem rollBackLoop_exact (env : RetryEnv)
    (hnc : ∀ j, env.cancelDuringDelay j = false) :
    ∀ (k i fuel : Nat),
      (∀ j, j < k → (env.attemptErr (i + j)).isSome) →
      env.attemptErr (i + k) = none →
      k < fuel →
      rollBackLoop env fuel i = .succeeded (i + k + 1) (i + k) := by
  intro k
  induction k with
  | zero =>
    intro i fuel _ hok hf
    match fuel, hf with
    | fuel + 1, _ =>
      rw [rollBackLoop]
      rw [show i + 0 = i by omega] at hok
      simp [hok]
  | succ k ih =>
    intro i fuel hfail hok hf
    match fuel, hf with
    | fuel + 1, _ =>
      rw [rollBackLoop]
      obtain ⟨e, he⟩ := Option.isSome_iff_exists.mp
        (by simpa using hfail 0 (by omega))
      rw [he, hnc i]
      rw [if_neg (by simp)]
      have hfail' : ∀ j, j < k → (env.attemptErr (i + 1 + j)).isSome := by
        intro j hj
        have := hfail (j + 1) (by omega)
        rwa [show i + (j + 1) = i + 1 + j by omega] at this
      have hok' : env.attemptErr (i + 1 + k) = none := by
        rwa [show i + (k + 1) = i + 1 + k by omega] at hok
      have := ih (i + 1) fuel hfail' hok' (by omega)
      rw [this]
      rw [show i + 1 + k = i + (k + 1) by omega]

/-- C5: for every N ≥ 0, if `setRootPassword` fails on the first N calls
and succeeds on call N+1 (with no cancellation), `rollBackPassword`
returns success after exactly N+1 `setRootPassword` calls and returns no
error. -/
theorem rollBackPassword_exact_calls (env : RetryEnv) (N fuel : Nat)
    (hfail : ∀ j, j < N → (env.attemptErr j).isSome)
    (hok : env.attemptErr N = none)
    (hnc : ∀ j, env.cancelDuringDelay j = false)
    (hf : N < fuel) :
    rollBackPassword env fuel = .succeeded (N + 1) N
    ∧ returnValue (rollBackPassword env fuel) = some none := by
  have h1 : rollBackPassword env fuel = .succeeded (N + 1) N := by
    have := rollBackLoop_exact env hnc N 0 fuel
      (by intro j hj; simpa using hfail j hj) (by simpa using hok) hf
    simpa [rollBackPassword] using this
  exact ⟨h1, by rw [h1]; rfl⟩

/-- Witness for C5: two failures then a success produce exactly three
calls and a nil return. -/
theorem rollBackPassword_exact_calls_witness :
    rollBackPassword ⟨fun j => if j < 2 then some "nope" else none, fun _ => false⟩ 3
      = .succeeded 3 2 :=
  (rollBackPassword_exact_calls
    ⟨fun j => if j < 2 then some "nope" else none, fun _ => false⟩ 2 3
    (fun j hj => by simp [hj]) (by decide) (fun _ => rfl) (by omega)).1

/-- C6: for every invocation of `rollBackPassword`, the configuration
value passed in is left unchanged by the controller: no field of the
configuration is mutated during the rollback operation, on any path
(success, retry, or cancellation), and threading the configuration does
not change the outcome. -/
theorem rollBackLoopC_frame (env : RetryEnv) (conf : Configuration) :
    ∀ (fuel i : Nat),
      (rollBackLoopC env conf fuel i).2 = conf
      ∧ (rollBackLoopC env conf fuel i).2.adConf.bindDN = conf.adConf.bindDN
      ∧ (rollBackLoopC env conf fuel i).1 = rollBackLoop env fuel i := by
  intro fuel
  induction fuel with
  | zero =>
    intro i
    refine ⟨rfl, rfl, ?_⟩
    rw [rollBackLoopC, rollBackLoop]
  | succ fuel ih =>
    intro i
    rw [rollBackLoopC, rollBackLoop]
    cases he : env.attemptErr i with
    | none => exact ⟨rfl, rfl, rfl⟩
    | some e =>
      cases hc : env.cancelDuringDelay i with
      | true => simp
      | false => simpa using ih (i + 1)

end VaultAD
